import Mathlib

/-!
Verification development for the libka string-formatting engine
(`script.module.libka/lib/libka/format.py`).

The Python source is shallowly embedded: every function below is a direct
translation of the corresponding Python function, working over `List Char`
for strings, an explicit `PyErr` sum for raised exceptions, and an explicit
`List String` for the per-instance field-name stack of `SafeFormatter`.
Recursive knots that Python ties through dynamic dispatch (formatter →
stylize → formatter) are broken with an explicit fuel parameter; every
function in the knot consumes fuel structurally, and out-of-fuel is reported
as a distinguished `PyErr.unsupported` error that no `except` clause of the
source maps to a caught exception class.

Modelling notes, applying to the whole file:
* Python `str` values are ASCII-modelled: character classes (`\w`, `\d`,
  `\s`, `isdigit`, `isalpha`) use the ASCII meaning.
* `object.__format__` (`pyFormat`) implements the format-spec mini-language
  on the subset exercised by this module (strings and integers, fill/align/
  sign/zero/width/precision, types `s` and `d`); spec features outside the
  subset produce `PyErr.unsupported`, never a silently wrong value.
* Error messages are paraphrased (no quotes or braces inside message text);
  claims that distinguish errors do so by `PyErr` constructor or by the
  dedicated message constants defined here.
-/

/-- Opening curly brace as a string (used to build placeholder values). -/
def lbraceS : String := "\x7b"

/-- Closing curly brace as a string (used to build placeholder values). -/
def rbraceS : String := "\x7d"

/-- Single-quote character (ASCII 39). -/
def squoteC : Char := Char.ofNat 39

/-- Backslash character. -/
def bslashC : Char := '\\'

/-- Association-list lookup, modelling Python `dict.get` for string keys. -/
def assocGet (m : List (String × α)) (k : String) : Option α :=
  match m with
  | [] => none
  | (k₁, v) :: rest => if k₁ = k then some v else assocGet rest k

/-- Python truthiness of a string: non-empty. -/
def strTruthy (s : List Char) : Bool := !s.isEmpty

/-- Values manipulated by the formatter: the Python types this module
actually passes through `format` (`str`, `int`, `None`, `list`, `dict`). -/
inductive PyValue where
  | str (s : String)
  | int (n : Int)
  | none
  | list (xs : List PyValue)
  | dict (xs : List (String × PyValue))

/-- Exceptions raised by the embedded code.  `invalidExpression` stands for
`simpleeval.InvalidExpression`; `unsupported` marks behaviour outside the
model (it is not caught by any modelled `except` clause). -/
inductive PyErr where
  | keyError (msg : String)
  | indexError (msg : String)
  | attributeError (msg : String)
  | valueError (msg : String)
  | typeError (msg : String)
  | invalidExpression (msg : String)
  | assertionError
  | unsupported (what : String)
deriving DecidableEq, Repr

/-- Result of running a piece of Python code. -/
abbrev Res (α : Type) := Except PyErr α

/-- Python truth-testing (`bool(value)`) for the modelled values. -/
def truthy : PyValue → Bool
  | .str s => !s.isEmpty
  | .int n => n != 0
  | .none => false
  | .list xs => !xs.isEmpty
  | .dict xs => !xs.isEmpty

/-- Translation table `ESCAPE_TRANS` from `format.py`. -/
def escapeTrans (c : Char) : List Char :=
  if c = bslashC then [bslashC, bslashC]
  else if c = squoteC then [bslashC, squoteC]
  else if c = '\"' then [bslashC, '\"']
  else if c = '\x07' then [bslashC, 'a']
  else if c = '\x08' then [bslashC, 'b']
  else if c = '\x0c' then [bslashC, 'f']
  else if c = '\n' then [bslashC, 'n']
  else if c = '\r' then [bslashC, 'r']
  else if c = '\t' then [bslashC, 't']
  else if c = '\x0b' then [bslashC, 'v']
  else if c = '\x00' then [bslashC, '0', '0', '0']
  else [c]

/-- Model of `str_escape`: escape every character through `ESCAPE_TRANS`. -/
def str_escape (s : List Char) : List Char :=
  match s with
  | [] => []
  | c :: rest => escapeTrans c ++ str_escape rest

/-- Scan the body of a single-delimiter quoted literal (`re_quote` groups q2
and q4): lazy `(?:\\.|.)*?` up to the closing quote `q`, with the
backtracking order of the regex engine: closing first, then the
escaped-pair alternative `\\.`, and — when that whole continuation fails —
the single-character alternative `.` consuming the backslash alone.
Returns the body (without the closing quote) and the remainder after the
closing quote. -/
def qscan1 (q : Char) : List Char → Option (List Char × List Char)
  | [] => Option.none
  | [c] => if c = q then some ([], []) else Option.none
  | c :: d :: rest =>
    if c = q then some ([], d :: rest)
    else if c = bslashC then
      match qscan1 q rest with
      | some p => some (bslashC :: d :: p.1, p.2)
      | Option.none =>
        match qscan1 q (d :: rest) with
        | some p => some (bslashC :: p.1, p.2)
        | Option.none => Option.none
    else
      (qscan1 q (d :: rest)).map fun p => (c :: p.1, p.2)

/-- Scan the body of a triple-delimiter quoted literal (`re_quote` groups q1
and q3): lazy match up to the closing triple quote, with the same
backtracking from the escaped-pair alternative to the single-character
one as `qscan1`. -/
def qscan3 (q : Char) : List Char → Option (List Char × List Char)
  | [] => Option.none
  | [_] => Option.none
  | [_, _] => Option.none
  | c :: d :: e :: rest =>
    if c = q ∧ d = q ∧ e = q then some ([], rest)
    else if c = bslashC then
      match qscan3 q (e :: rest) with
      | some p => some (bslashC :: d :: p.1, p.2)
      | Option.none =>
        match qscan3 q (d :: e :: rest) with
        | some p => some (bslashC :: p.1, p.2)
        | Option.none => Option.none
    else
      (qscan3 q (d :: e :: rest)).map fun p => (c :: p.1, p.2)

/-- Model of a `re_quote` match anchored at the head of `cs`.  The
triple-quoted alternatives are tried before the single-quoted ones, in the
alternation order of the regex; a failed triple match falls back to the
single form.  Returns `(isTriple, body, rest)`. -/
def matchQuote : List Char → Option (Bool × List Char × List Char)
  | [] => Option.none
  | c :: rest =>
    if c = '\"' ∨ c = squoteC then
      if rest.head? = some c ∧ rest.tail.head? = some c then
        match qscan3 c rest.tail.tail with
        | some (b, r) => some (true, b, r)
        | Option.none => (qscan1 c rest).map fun p => (false, p.1, p.2)
      else
        (qscan1 c rest).map fun p => (false, p.1, p.2)
    else Option.none

/-- Full matched text of a quote match, delimiters included. -/
def quoteFull (q : Char) (isTriple : Bool) (body : List Char) : List Char :=
  if isTriple then [q, q, q] ++ body ++ [q, q, q] else q :: body ++ [q]

/-- Token produced by `fparser`: `(literal_text, field_name, format_spec,
conversion)`, with `none` marking Python `None`. -/
structure FTok where
  lit : List Char
  fieldName : Option (List Char)
  formatSpec : Option (List Char)
  conversion : Option (List Char)
deriving DecidableEq, Repr

/-- The freshly reset token vector `['', None, None, None]`. -/
def emptyTok : FTok := ⟨[], Option.none, Option.none, Option.none⟩

/-- Model of `vec[oi] += text`: append to the component selected by `oi`. -/
def addVec (v : FTok) (oi : Nat) (cs : List Char) : FTok :=
  match oi with
  | 0 => { v with lit := v.lit ++ cs }
  | 1 => { v with fieldName := some (v.fieldName.getD [] ++ cs) }
  | 2 => { v with formatSpec := some (v.formatSpec.getD [] ++ cs) }
  | _ => { v with conversion := some (v.conversion.getD [] ++ cs) }

/-- One lexical step of the `fparser` scan: what the scanner consumes at the
current position, before any token bookkeeping. -/
inductive FStep where
  | two (c : Char) (rest : List Char)
  | openB (rest : List Char)
  | closeB (rest : List Char)
  | qspan (q : Char) (isTriple : Bool) (body : List Char) (rest : List Char)
  | one (c : Char) (rest : List Char)

/-- Remainder of the input after an `FStep`. -/
def FStep.rest : FStep → List Char
  | .two _ r => r
  | .openB r => r
  | .closeB r => r
  | .qspan _ _ _ r => r
  | .one _ r => r

/-- Classify the next lexical step of `fparser` at nesting level `lvl`:
doubled braces, an opening or closing brace, a quoted run (only inside a
field, per the `lvl > 0` guard in the source), or a single character. -/
def stepOf (lvl : Nat) : List Char → Option FStep
  | [] => Option.none
  | c :: rest =>
    if (c = '{' ∨ c = '}') ∧ rest.head? = some c then some (.two c rest.tail)
    else if c = '{' then some (.openB rest)
    else if c = '}' then some (.closeB rest)
    else if 0 < lvl ∧ (c = '\"' ∨ c = squoteC) then
      match matchQuote (c :: rest) with
      | some (t, b, r) => some (.qspan c t b r)
      | Option.none => some (.one c rest)
    else some (.one c rest)

/-- Error message of the tokenizer for a lone closing brace (paraphrase of
the `Single` closing-brace `ValueError` raised by `fparser`). -/
def msgLoneClose : String := "single closing brace encountered in format string"

/-- Error message of the tokenizer for a lone opening brace (paraphrase of
the `Single` opening-brace `ValueError` raised at end of input). -/
def msgLoneOpen : String := "single opening brace encountered in format string"

/-- Error message for model fuel exhaustion (never reached when the fuel
exceeds the input length). -/
def msgFuel : String := "model out of fuel"

/-- Replace every newline by a backslash-n pair, modelling the
`eol_escape` rewriting of quoted runs in `fparser`. -/
def replaceNl : List Char → List Char
  | [] => []
  | c :: rest => if c = '\n' then bslashC :: 'n' :: replaceNl rest else c :: replaceNl rest

/-- Model of `fparser` from `format.py`: the extended tokenizer.  Arguments
mirror the loop state of the source: remaining input, nesting level `lvl`,
current token vector `vec`, output selector `oi`, and the tokens yielded so
far.  Fuel decreases on every consumed step; `stepOf` factors the shared
lexical step. -/
def fparserF (eolEscape : Bool) : Nat → List Char → Nat → FTok → Nat → List FTok →
    Except String (List FTok)
  | 0, _, _, _, _, _ => .error msgFuel
  | fuel + 1, cs, lvl, vec, oi, acc =>
    match stepOf lvl cs with
    | Option.none =>
      if lvl ≠ 0 then .error msgLoneOpen
      else if strTruthy vec.lit ∨ vec.fieldName ≠ Option.none then .ok (acc ++ [vec])
      else .ok acc
    | some (.two c rest) => fparserF eolEscape fuel rest lvl (addVec vec oi [c]) oi acc
    | some (.openB rest) =>
      if lvl = 0 then
        fparserF eolEscape fuel rest (lvl + 1)
          { vec with fieldName := some [], formatSpec := some [] } 1 acc
      else fparserF eolEscape fuel rest (lvl + 1) (addVec vec oi ['{']) oi acc
    | some (.closeB rest) =>
      if lvl = 0 then .error msgLoneClose
      else if lvl = 1 then fparserF eolEscape fuel rest (lvl - 1) emptyTok 0 (acc ++ [vec])
      else fparserF eolEscape fuel rest (lvl - 1) (addVec vec oi ['}']) oi acc
    | some (.qspan q t b rest) =>
      let txt := quoteFull q t b
      let txt := if eolEscape then replaceNl txt else txt
      fparserF eolEscape fuel rest lvl (addVec vec oi txt) oi acc
    | some (.one c rest) =>
      if lvl = 1 ∧ c = '!' ∧ oi = 1 then
        fparserF eolEscape fuel rest lvl { vec with conversion := some [] } 3 acc
      else if lvl = 1 ∧ c = ':' ∧ (oi = 1 ∨ oi = 3) then
        fparserF eolEscape fuel rest lvl { vec with formatSpec := some [] } 2 acc
      else fparserF eolEscape fuel rest lvl (addVec vec oi [c]) oi acc

/-- Outcome of the independent brace-depth scan used to define
balancedness of a template. -/
inductive ScanOut where
  | balanced
  | loneClose
  | loneOpen
  | stuck
deriving DecidableEq, Repr

/-- Independent brace-depth scan over the same lexical steps as `fparser`:
tracks only the nesting level and reports whether the input is balanced,
has a closing brace at depth zero, or ends at positive depth. -/
def scanF : Nat → List Char → Nat → ScanOut
  | 0, _, _ => .stuck
  | fuel + 1, cs, lvl =>
    match stepOf lvl cs with
    | Option.none => if lvl ≠ 0 then .loneOpen else .balanced
    | some (.two _ rest) => scanF fuel rest lvl
    | some (.openB rest) => scanF fuel rest (lvl + 1)
    | some (.closeB rest) =>
      if lvl = 0 then .loneClose else scanF fuel rest (lvl - 1)
    | some (.qspan _ _ _ rest) => scanF fuel rest lvl
    | some (.one _ rest) => scanF fuel rest lvl

/-- Outcome classification of a tokenizer run, for comparison with the
brace-depth scan. -/
def fkind : Except String (List FTok) → ScanOut
  | .ok _ => .balanced
  | .error m =>
    if m = msgLoneClose then .loneClose
    else if m = msgLoneOpen then .loneOpen
    else .stuck

/-- Model of calling `fparser(s)` and draining the generator: tokens on
success, the `ValueError` message otherwise.  `eol_escape` defaults to
false as in the source. -/
def fparser (s : String) : Except String (List FTok) :=
  fparserF false (s.data.length + 1) s.data 0 emptyTok 0 []

/-- Balancedness of a template under the tokenizer lexical rules: the
brace-depth scan finishes at depth zero without seeing a closing brace at
depth zero. -/
def braceScan (s : String) : ScanOut :=
  scanF (s.data.length + 1) s.data 0

/-- Decimal digit character for a value below ten. -/
def digitChar (d : Nat) : Char := Char.ofNat (48 + d)

/-- Decimal rendering of a natural number (fuel-structural so that the
kernel can evaluate it). -/
def natDigitsAux : Nat → Nat → List Char
  | 0, _ => []
  | fuel + 1, n =>
    if n < 10 then [digitChar n]
    else natDigitsAux fuel (n / 10) ++ [digitChar (n % 10)]

/-- Decimal rendering of a natural number. -/
def natToChars (n : Nat) : List Char := natDigitsAux (n + 1) n

/-- Decimal rendering of an integer, Python `str(int)`. -/
def intToChars (i : Int) : List Char :=
  if i < 0 then '-' :: natToChars i.natAbs else natToChars i.natAbs

/-- Python `repr` escaping for one character inside a string repr
(ASCII approximation: backslash, quote and the common control characters). -/
def reprEscChar (c : Char) : List Char :=
  if c = bslashC then [bslashC, bslashC]
  else if c = squoteC then [bslashC, squoteC]
  else if c = '\n' then [bslashC, 'n']
  else if c = '\r' then [bslashC, 'r']
  else if c = '\t' then [bslashC, 't']
  else [c]

/-- Comma-space separated concatenation. -/
def commaJoin : List (List Char) → List Char
  | [] => []
  | [x] => x
  | x :: rest => x ++ [',', ' '] ++ commaJoin rest

mutual

/-- Python `str(value)` for the modelled values, bounded by fuel for the
nested containers (the module never renders containers nested deeper than
the fuel used by the wrappers below). -/
def pyStrF : Nat → PyValue → List Char
  | _, .str s => s.data
  | _, .int n => intToChars n
  | _, .none => "None".data
  | fuel, .list xs => pyReprF fuel (.list xs)
  | fuel, .dict xs => pyReprF fuel (.dict xs)

/-- Python `repr(value)` for the modelled values (ASCII approximation),
bounded by fuel for the nested containers. -/
def pyReprF : Nat → PyValue → List Char
  | _, .str s => squoteC :: (s.data.map reprEscChar).flatten ++ [squoteC]
  | _, .int n => intToChars n
  | _, .none => "None".data
  | 0, .list _ => "<nesting too deep>".data
  | 0, .dict _ => "<nesting too deep>".data
  | fuel + 1, .list xs => '[' :: commaJoin (pyReprItems fuel xs) ++ [']']
  | fuel + 1, .dict xs => '{' :: commaJoin (pyReprPairs fuel xs) ++ ['}']

/-- Reprs of the items of a list value. -/
def pyReprItems : Nat → List PyValue → List (List Char)
  | _, [] => []
  | fuel, x :: rest => pyReprF fuel x :: pyReprItems fuel rest

/-- Reprs of the pairs of a dict value. -/
def pyReprPairs : Nat → List (String × PyValue) → List (List Char)
  | _, [] => []
  | fuel, (k, x) :: rest =>
    (squoteC :: k.data ++ [squoteC] ++ [':', ' '] ++ pyReprF fuel x) :: pyReprPairs fuel rest

end

/-- Python `str(value)`; nesting depth four suffices for every value this
development evaluates. -/
def pyStr (v : PyValue) : List Char := pyStrF 4 v

/-- Python `repr(value)`; nesting depth four as above. -/
def pyRepr (v : PyValue) : List Char := pyReprF 4 v

/-- Digits-to-number conversion (the characters are assumed decimal). -/
def digitsToNat (cs : List Char) : Nat :=
  cs.foldl (fun acc c => acc * 10 + (c.toNat - 48)) 0

/-- Python `str.isdigit()` on the ASCII model: non-empty and all digits. -/
def pyIsdigit (cs : List Char) : Bool :=
  !cs.isEmpty && cs.all Char.isDigit

/-- Python whitespace stripping, `str.strip()`. -/
def pyStrip (cs : List Char) : List Char :=
  ((cs.dropWhile Char.isWhitespace).reverse.dropWhile Char.isWhitespace).reverse

/-- Model of Python `int(string)`: optional surrounding whitespace, optional
sign, at least one digit; anything else raises `ValueError`. -/
def pyInt (cs : List Char) : Res Int :=
  let t := pyStrip cs
  let handle : Bool → List Char → Res Int := fun neg ds =>
    if pyIsdigit ds then
      .ok (if neg then -(digitsToNat ds : Int) else (digitsToNat ds : Int))
    else .error (.valueError "invalid literal for int with base 10")
  match t with
  | '-' :: ds => handle true ds
  | '+' :: ds => handle false ds
  | ds => handle false ds

/-- Parsed Python format specification
`[[fill]align][sign][#][0][width][grouping][.precision][type]`. -/
structure SpecParsed where
  fill : Option Char
  align : Option Char
  sign : Option Char
  alt : Bool
  zero : Bool
  width : Nat
  grouping : Option Char
  precision : Option Nat
  ty : Option Char
deriving Repr

/-- Alignment characters of the format-spec mini-language. -/
def isAlignChar (c : Char) : Bool := c = '<' ∨ c = '>' ∨ c = '=' ∨ c = '^'

/-- Parse a Python format specification; `none` models the `Invalid format
specifier` ValueError. -/
def parseSpec (cs : List Char) : Option SpecParsed :=
  let fillAlign : Option Char × Option Char × List Char :=
    match cs with
    | a :: b :: rest =>
      if isAlignChar b then (some a, some b, rest)
      else if isAlignChar a then (Option.none, some a, b :: rest)
      else (Option.none, Option.none, cs)
    | [a] =>
      if isAlignChar a then (Option.none, some a, [])
      else (Option.none, Option.none, cs)
    | [] => (Option.none, Option.none, cs)
  let (fill, align, cs) := fillAlign
  let (sign, cs) : Option Char × List Char :=
    match cs with
    | c :: rest => if c = '+' ∨ c = '-' ∨ c = ' ' then (some c, rest) else (Option.none, cs)
    | [] => (Option.none, cs)
  let (alt, cs) : Bool × List Char :=
    match cs with
    | '#' :: rest => (true, rest)
    | _ => (false, cs)
  let (zero, cs) : Bool × List Char :=
    match cs with
    | '0' :: rest => (true, rest)
    | _ => (false, cs)
  let widthDigits := cs.takeWhile Char.isDigit
  let cs := cs.dropWhile Char.isDigit
  let (grouping, cs) : Option Char × List Char :=
    match cs with
    | c :: rest => if c = ',' ∨ c = '_' then (some c, rest) else (Option.none, cs)
    | [] => (Option.none, cs)
  let precRes : Option (Option Nat × List Char) :=
    match cs with
    | '.' :: rest =>
      let pd := rest.takeWhile Char.isDigit
      if pd.isEmpty then Option.none
      else some (some (digitsToNat pd), rest.dropWhile Char.isDigit)
    | _ => some (Option.none, cs)
  match precRes with
  | Option.none => Option.none
  | some (precision, cs) =>
    match cs with
    | [] => some ⟨fill, align, sign, alt, zero, digitsToNat widthDigits, grouping, precision, Option.none⟩
    | [t] => some ⟨fill, align, sign, alt, zero, digitsToNat widthDigits, grouping, precision, some t⟩
    | _ => Option.none

/-- Pad `body` to `width` with `fill` according to an alignment character
(Python semantics: centering puts the extra fill on the right). -/
def padTo (alignC : Char) (fill : Char) (width : Nat) (body : List Char) : List Char :=
  if body.length ≥ width then body
  else
    let pad := width - body.length
    if alignC = '>' then List.replicate pad fill ++ body
    else if alignC = '^' then
      List.replicate (pad / 2) fill ++ body ++ List.replicate (pad - pad / 2) fill
    else body ++ List.replicate pad fill

/-- Model of `str.__format__` on the modelled spec subset. -/
def formatStr (s : List Char) (spec : List Char) : Res (List Char) :=
  match parseSpec spec with
  | Option.none => .error (.valueError "invalid format specifier")
  | some sp =>
    if !(sp.ty = Option.none ∨ sp.ty = some 's') then
      .error (.valueError "unknown format code for object of type str")
    else if sp.sign.isSome then
      .error (.valueError "sign not allowed in string format specifier")
    else if sp.align = some '=' then
      .error (.valueError "equals alignment not allowed in string format specifier")
    else if sp.alt then
      .error (.valueError "alternate form not allowed in string format specifier")
    else if sp.grouping.isSome then
      .error (.valueError "grouping not allowed in string format specifier")
    else
      let body := match sp.precision with
        | some p => s.take p
        | Option.none => s
      let fill := sp.fill.getD (if sp.zero then '0' else ' ')
      let alignC := (sp.align.getD '<')
      .ok (padTo alignC fill sp.width body)

/-- Model of `int.__format__` on the modelled spec subset (`d` and the
default).  The numeric presentation types outside the subset are reported
as `unsupported`, never silently mis-rendered. -/
def formatInt (n : Int) (spec : List Char) : Res (List Char) :=
  match parseSpec spec with
  | Option.none => .error (.valueError "invalid format specifier")
  | some sp =>
    if sp.ty = some 's' then
      .error (.valueError "unknown format code s for object of type int")
    else if !(sp.ty = Option.none ∨ sp.ty = some 'd') then
      .error (.unsupported "integer presentation type outside the modelled subset")
    else if sp.precision.isSome then
      .error (.valueError "precision not allowed in integer format specifier")
    else if sp.grouping.isSome then
      .error (.unsupported "digit grouping outside the modelled subset")
    else
      let digits := natToChars n.natAbs
      let signChars : List Char :=
        if n < 0 then ['-']
        else if sp.sign = some '+' then ['+']
        else if sp.sign = some ' ' then [' ']
        else []
      let useEq := sp.align = some '=' ∨ (sp.align.isNone ∧ sp.zero)
      let fill := sp.fill.getD (if sp.zero ∧ sp.align.isNone then '0' else ' ')
      if useEq then
        let body := signChars ++ digits
        if body.length ≥ sp.width then .ok body
        else .ok (signChars ++ List.replicate (sp.width - body.length) fill ++ digits)
      else
        let alignC := sp.align.getD '>'
        .ok (padTo alignC fill sp.width (signChars ++ digits))

/-- Model of the builtin `format(value, spec)` used by
`string.Formatter.format_field`. -/
def pyFormat (v : PyValue) (spec : List Char) : Res (List Char) :=
  if spec.isEmpty then .ok (pyStr v)
  else
    match v with
    | .str s => formatStr s.data spec
    | .int n => formatInt n spec
    | .none => .error (.typeError "unsupported format string passed to NoneType")
    | .list _ => .error (.typeError "unsupported format string passed to list")
    | .dict _ => .error (.typeError "unsupported format string passed to dict")

/-- Key of a direct argument lookup: a positional index (numeric first
component) or a named argument. -/
inductive FKey where
  | pos (n : Nat)
  | name (s : String)
deriving DecidableEq, Repr

/-- Python `repr` of a lookup key, for the `get_value` placeholder and the
`raise_empty` message. -/
def fkeyRepr : FKey → List Char
  | .pos n => natToChars n
  | .name s => squoteC :: s.data ++ [squoteC]

/-- Literal-scan part of the standard `string.Formatter.parse`
(`_string.formatter_parser`): accumulate literal text, resolving doubled
braces and failing on a lone closing brace; stops after an opening brace
(returning the remainder) or at end of input. -/
def stdLit : List Char → Res (List Char × Option (List Char))
  | [] => .ok ([], Option.none)
  | '{' :: '{' :: rest =>
    (stdLit rest).map fun p => ('{' :: p.1, p.2)
  | '}' :: '}' :: rest =>
    (stdLit rest).map fun p => ('}' :: p.1, p.2)
  | '}' :: _ => .error (.valueError msgLoneClose)
  | '{' :: rest => .ok ([], some rest)
  | c :: rest =>
    (stdLit rest).map fun p => (c :: p.1, p.2)

/-- Field-name scan of the standard parser: consume until `!`, `:` or `}`
outside square brackets (inside `[...]` the delimiters are ordinary
characters).  Returns the name, the delimiter and the remainder. -/
def stdName : Bool → List Char → Res (List Char × Char × List Char)
  | _, [] => .error (.valueError msgLoneOpen)
  | true, c :: rest =>
    if c = ']' then (stdName false rest).map fun p => (c :: p.1, p.2)
    else (stdName true rest).map fun p => (c :: p.1, p.2)
  | false, c :: rest =>
    if c = '!' ∨ c = ':' ∨ c = '}' then .ok ([], c, rest)
    else if c = '{' then .error (.valueError "unexpected open brace in field name")
    else if c = '[' then (stdName true rest).map fun p => (c :: p.1, p.2)
    else (stdName false rest).map fun p => (c :: p.1, p.2)

/-- Format-spec scan of the standard parser: consume until the closing
brace of the field, balancing nested braces inside the spec. -/
def stdSpec : Nat → List Char → Res (List Char × List Char)
  | _, [] => .error (.valueError msgLoneOpen)
  | d, c :: rest =>
    if c = '{' then (stdSpec (d + 1) rest).map fun p => (c :: p.1, p.2)
    else if c = '}' then
      if d = 0 then .ok ([], rest)
      else (stdSpec (d - 1) rest).map fun p => (c :: p.1, p.2)
    else (stdSpec d rest).map fun p => (c :: p.1, p.2)

/-- Parse one field of the standard parser, after its opening brace:
name, optional `!conversion`, optional `:format_spec`, closing brace. -/
def stdField (cs : List Char) : Res ((List Char × List Char × Option (List Char)) × List Char) := do
  let (nameChars, delim, rest) ← stdName false cs
  if delim = '}' then
    return ((nameChars, [], Option.none), rest)
  else if delim = '!' then
    match rest with
    | [] => .error (.valueError "end of string while looking for conversion specifier")
    | cv :: rest₂ =>
      match rest₂ with
      | '}' :: rest₃ => return ((nameChars, [], some [cv]), rest₃)
      | ':' :: rest₃ =>
        let (spec, rest₄) ← stdSpec 0 rest₃
        return ((nameChars, spec, some [cv]), rest₄)
      | _ => .error (.valueError "expected colon after conversion specifier")
  else do
    let (spec, rest₂) ← stdSpec 0 rest
    return ((nameChars, spec, Option.none), rest₂)

/-- Standard `string.Formatter.parse`, eager: the whole template is
tokenized before any field is resolved (the source iterates the same
tokens lazily; only the interleaving of parse errors with field effects
differs, which no claim observes). -/
def stdParse : Nat → List Char → Res (List FTok)
  | 0, _ => .error (.unsupported msgFuel)
  | fuel + 1, cs => do
    let (lit, restOpt) ← stdLit cs
    match restOpt with
    | Option.none =>
      if lit.isEmpty then return []
      else return [⟨lit, Option.none, Option.none, Option.none⟩]
    | some rest => do
      let ((nameChars, spec, conv), rest₂) ← stdField rest
      let toks ← stdParse fuel rest₂
      return ⟨lit, some nameChars, some spec, conv⟩ :: toks

/-- Split the chain part of a field name: a leading `.attr` or `[index]`
sequence after the first component (`_string.formatter_field_name_split`). -/
def splitItems : Nat → List Char → Res (List (Bool × FKey))
  | 0, _ => .error (.unsupported msgFuel)
  | _, [] => .ok []
  | fuel + 1, '.' :: rest =>
    let attr := rest.takeWhile (fun c => ¬ (c = '.' ∨ c = '['))
    let rest₂ := rest.dropWhile (fun c => ¬ (c = '.' ∨ c = '['))
    if attr.isEmpty then .error (.valueError "empty attribute in format string")
    else do
      let items ← splitItems fuel rest₂
      return (true, .name (String.mk attr)) :: items
  | fuel + 1, '[' :: rest =>
    let idx := rest.takeWhile (fun c => ¬ c = ']')
    let rest₂ := rest.dropWhile (fun c => ¬ c = ']')
    match rest₂ with
    | ']' :: rest₃ =>
      if idx.isEmpty then .error (.valueError "empty attribute in format string")
      else
        let key := if pyIsdigit idx then FKey.pos (digitsToNat idx) else FKey.name (String.mk idx)
        match rest₃ with
        | [] => return [(false, key)]
        | '.' :: _ => do
          let items ← splitItems fuel rest₃
          return (false, key) :: items
        | '[' :: _ => do
          let items ← splitItems fuel rest₃
          return (false, key) :: items
        | _ => .error (.valueError "only a dot or a bracket may follow a bracket in format field specifier")
    | _ => .error (.valueError "missing closing bracket in format string")
  | _ + 1, _ :: _ => .error (.unsupported "unreachable field item shape")

/-- Model of `_string.formatter_field_name_split`: first component (an
integer key when purely numeric) plus the attribute/index chain. -/
def fieldNameSplit (cs : List Char) : Res (FKey × List (Bool × FKey)) := do
  let first := cs.takeWhile (fun c => ¬ (c = '.' ∨ c = '['))
  let rest := cs.dropWhile (fun c => ¬ (c = '.' ∨ c = '['))
  let key := if pyIsdigit first then FKey.pos (digitsToNat first) else FKey.name (String.mk first)
  let items ← splitItems (rest.length + 1) rest
  return (key, items)

/-- Attribute access on the modelled values: none of the embedded value
types carries attributes that the module reads, so `getattr` raises
`AttributeError` (as CPython does for missing attributes). -/
def pyGetattr (_v : PyValue) (name : String) : Res PyValue :=
  .error (.attributeError ("object has no attribute " ++ name))

/-- Subscript access `obj[key]` on the modelled values. -/
def pyGetitem (v : PyValue) (k : FKey) : Res PyValue :=
  match v, k with
  | .list xs, .pos n =>
    match xs.get? n with
    | some x => .ok x
    | Option.none => .error (.indexError "list index out of range")
  | .list _, .name _ => .error (.typeError "list indices must be integers or slices")
  | .str s, .pos n =>
    match s.data.get? n with
    | some c => .ok (.str (String.mk [c]))
    | Option.none => .error (.indexError "string index out of range")
  | .str _, .name _ => .error (.typeError "string indices must be integers")
  | .dict xs, .name key =>
    match assocGet xs key with
    | some x => .ok x
    | Option.none => .error (.keyError key)
  | .dict _, .pos n => .error (.keyError (String.mk (natToChars n)))
  | .int _, _ => .error (.typeError "int object is not subscriptable")
  | .none, _ => .error (.typeError "NoneType object is not subscriptable")

/-- Style descriptor: a single style token or an ordered list
(`Union[List[str], str]` in the source). -/
inductive StyleVal where
  | one (s : String)
  | many (ss : List String)

/-- The `colors` collaborator of stylization: absent, a mapping, or a
resolver function. -/
inductive ColorsV where
  | noneV
  | mapV (m : List (String × String))
  | fnV (f : String → String)

/-- Model of the `StylizeSettings` dataclass. -/
structure StylizeSettings where
  style : Option StyleVal
  info : Option (List (String × PyValue))
  colors : ColorsV
  kwargs : Option (List (String × PyValue))

/-- Default `StylizeSettings()`: every field `None`. -/
def defaultStylize : StylizeSettings :=
  ⟨Option.none, Option.none, .noneV, Option.none⟩

/-- Configuration of a `SafeFormatter` instance.  The expression evaluator
is an external collaborator (out of scope of the spec); it is abstracted as
an optional function from the field expression to a value or an error, and
stands for the per-call `self.evaluator` that `vformat` builds. -/
structure SafeFormatterCfg where
  safe : Bool
  evaluator : Option (List Char → Res PyValue)
  escape : Bool
  extended : Bool
  raise_empty : Bool
  stylizeSettings : StylizeSettings
  styles : List (String × StyleVal)

/-- `SafeFormatter(safe=..., raise_empty=...)` with no evaluator available
(the `simpleeval` import is absent) and every other argument left at its
default. -/
def mkFormatter (safe raiseEmpty : Bool) : SafeFormatterCfg :=
  ⟨safe, Option.none, true, false, raiseEmpty, defaultStylize, []⟩

/-- `SafeFormatter(styles=...)` with defaults otherwise. -/
def mkFormatterStyles (styles : List (String × StyleVal)) : SafeFormatterCfg :=
  ⟨true, Option.none, true, false, false, defaultStylize, styles⟩

/-- Exceptions caught by the lookup fallback of `get_field`:
`(KeyError, AttributeError, IndexError)`. -/
def isKAIErr : PyErr → Bool
  | .keyError _ => true
  | .attributeError _ => true
  | .indexError _ => true
  | _ => false

/-- Model of `string.Formatter.get_value` (the `super().get_value` call):
positional keys index `args`, named keys index `kwargs`. -/
def rawGetValue (key : FKey) (args : List PyValue)
    (kwargs : List (String × PyValue)) : Res PyValue :=
  match key with
  | .pos n =>
    match args.get? n with
    | some v => .ok v
    | Option.none => .error (.indexError "tuple index out of range")
  | .name s =>
    match assocGet kwargs s with
    | some v => .ok v
    | Option.none => .error (.keyError s)

/-- Model of `SafeFormatter.get_value`: direct lookup; in safe mode an
`IndexError` is replaced by the literal placeholder of the key; with
`raise_empty`, a falsy resolved value raises `ValueError`. -/
def SafeFormatter.get_value (cfg : SafeFormatterCfg) (key : FKey)
    (args : List PyValue) (kwargs : List (String × PyValue)) : Res PyValue :=
  let afterIndex : Res PyValue :=
    match rawGetValue key args kwargs with
    | .error (.indexError m) =>
      if cfg.safe then .ok (.str (lbraceS ++ String.mk (fkeyRepr key) ++ rbraceS))
      else .error (.indexError m)
    | r => r
  match afterIndex with
  | .ok v =>
    if cfg.raise_empty ∧ ¬ truthy v then
      .error (.valueError (String.mk (fkeyRepr key) ++ " is not empty"))
    else .ok v
  | e => e

/-- Model of `string.Formatter.get_field`: split the field name, resolve
the first component through `SafeFormatter.get_value` (dynamic dispatch),
then walk the attribute/index chain. -/
def stdGetField (cfg : SafeFormatterCfg) (fieldName : List Char)
    (args : List PyValue) (kwargs : List (String × PyValue)) : Res PyValue := do
  let (first, items) ← fieldNameSplit fieldName
  let obj ← SafeFormatter.get_value cfg first args kwargs
  items.foldlM
    (fun obj item =>
      match item with
      | (true, .name a) => pyGetattr obj a
      | (true, .pos n) => pyGetattr obj (String.mk (natToChars n))
      | (false, k) => pyGetitem obj k)
    obj

/-- The `missing_field` hook: the literal placeholder of the unresolved
field expression. -/
def missing_field (fieldName : List Char) : PyValue :=
  .str (lbraceS ++ String.mk fieldName ++ rbraceS)

/-- Model of `SafeFormatter.get_field`: push the stripped field name on the
stack; on a `KeyError`/`AttributeError`/`IndexError` of the direct lookup,
a purely numeric field pops and re-raises, any other field falls through to
the evaluator and then to the literal placeholder.  Exceptions outside
those three classes propagate with the name still on the stack. -/
def SafeFormatter.get_field (cfg : SafeFormatterCfg) (fieldName : List Char)
    (args : List PyValue) (kwargs : List (String × PyValue)) (stack : List String) :
    Res PyValue × List String :=
  let stack₁ := String.mk (pyStrip fieldName) :: stack
  match stdGetField cfg fieldName args kwargs with
  | .ok v => (.ok v, stack₁)
  | .error e =>
    if isKAIErr e then
      if pyIsdigit fieldName then
        (.error e, stack)
      else
        match cfg.evaluator with
        | some ev =>
          match ev fieldName with
          | .ok v => (.ok v, stack₁)
          | .error (.invalidExpression _) => (.ok (missing_field fieldName), stack₁)
          | .error e₂ => (.error e₂, stack₁)
        | Option.none => (.ok (missing_field fieldName), stack₁)
    else (.error e, stack₁)

/-- Model of `SafeFormatter.convert_field`: the `!e` escape conversion when
enabled, then the standard conversions. -/
def SafeFormatter.convert_field (cfg : SafeFormatterCfg) (v : PyValue)
    (conv : Option (List Char)) : Res PyValue :=
  if cfg.escape ∧ conv = some ['e'] then
    .ok (.str (String.mk (str_escape (pyStr v))))
  else
    match conv with
    | Option.none => .ok v
    | some ['s'] => .ok (.str (String.mk (pyStr v)))
    | some ['r'] => .ok (.str (String.mk (pyRepr v)))
    | some ['a'] => .error (.unsupported "ascii conversion outside the modelled subset")
    | some _ => .error (.valueError "unknown conversion specifier")

/-- Identifier character of `re_field_name` (`[^\W\d]`): a word character
that is not a digit. -/
def isIdentChar (c : Char) : Bool := c.isAlpha ∨ c = '_'

/-- Word character (`\w`) on the ASCII model. -/
def isWordChar (c : Char) : Bool := c.isAlphanum ∨ c = '_'

/-- Replace quoted runs by their body, modelling
`re_quote.sub(r'\g<q1>\g<q2>\g<q3>\g<q4>', field_name)`. -/
def normQuotesF : Nat → List Char → List Char
  | 0, cs => cs
  | _ + 1, [] => []
  | fuel + 1, c :: rest =>
    match matchQuote (c :: rest) with
    | some (_, b, r) => b ++ normQuotesF fuel r
    | Option.none => c :: normQuotesF fuel rest

/-- Quote-normalised field name. -/
def normQuotes (cs : List Char) : List Char := normQuotesF (cs.length + 1) cs

/-- Walk the parts of a field name after its leading identifier, tracking
the start (as the already-consumed prefix) of the last `part` group and
whether it is a bracket part; models `re_field_name.fullmatch`.  Returns
`none` on no match, `some none` on a match without parts, and
`some (some (prefix, isBracket))` otherwise. -/
def fnLoop : Nat → List Char → List Char → Option (List Char × Bool) →
    Option (Option (List Char × Bool))
  | 0, _, _, _ => Option.none
  | _ + 1, [], _, last => some last
  | fuel + 1, '.' :: rest, prefixAcc, last =>
    match rest with
    | ['*'] => some last
    | _ =>
      let attr := rest.takeWhile isIdentChar
      if attr.isEmpty then Option.none
      else
        fnLoop fuel (rest.dropWhile isIdentChar) (prefixAcc ++ '.' :: attr)
          (some (prefixAcc, false))
  | fuel + 1, '[' :: rest, prefixAcc, last =>
    match rest with
    | ['*', ']'] => some last
    | _ =>
      let ws1 := rest.takeWhile Char.isWhitespace
      let r1 := rest.dropWhile Char.isWhitespace
      match r1 with
      | c :: _ =>
        if c = '\"' ∨ c = squoteC then
          match matchQuote r1 with
          | some (t, b, r2) =>
            let ws2 := r2.takeWhile Char.isWhitespace
            let r3 := r2.dropWhile Char.isWhitespace
            match r3 with
            | ']' :: r4 =>
              fnLoop fuel r4
                (prefixAcc ++ '[' :: ws1 ++ quoteFull c t b ++ ws2 ++ [']'])
                (some (prefixAcc, true))
            | _ => Option.none
          | Option.none => Option.none
        else
          let w := r1.takeWhile isWordChar
          if w.isEmpty then Option.none
          else
            let afterW := r1.dropWhile isWordChar
            let ws2 := afterW.takeWhile Char.isWhitespace
            let r2 := afterW.dropWhile Char.isWhitespace
            match r2 with
            | ']' :: r3 =>
              fnLoop fuel r3 (prefixAcc ++ '[' :: ws1 ++ w ++ ws2 ++ [']'])
                (some (prefixAcc, true))
            | _ => Option.none
      | [] => Option.none
  | _ + 1, _ :: _, _, _ => Option.none

/-- Model of `re_field_name.fullmatch(field_name)` restricted to the data
the style cascade needs: whether it matches, and the prefix and kind of
the last repeated part. -/
def fieldNameMatch (cs : List Char) : Option (Option (List Char × Bool)) :=
  let ident := cs.takeWhile isIdentChar
  if ident.isEmpty then Option.none
  else fnLoop (cs.length + 1) (cs.dropWhile isIdentChar) ident Option.none

/-- Match `RE_TITLE_COLOR` (`\[COLOR +:(\w+)\]`) at the head of the input;
returns the color name and the remainder. -/
def matchColor (cs : List Char) : Option (String × List Char) :=
  if "[COLOR".data.isPrefixOf cs then
    let r0 := cs.drop 6
    let sp := r0.takeWhile (fun c => c = ' ')
    let r1 := r0.dropWhile (fun c => c = ' ')
    if sp.isEmpty then Option.none
    else
      match r1 with
      | ':' :: r2 =>
        let w := r2.takeWhile isWordChar
        if w.isEmpty then Option.none
        else
          match r2.dropWhile isWordChar with
          | ']' :: r3 => some (String.mk w, r3)
          | _ => Option.none
      | _ => Option.none
  else Option.none

/-- Substitution pass of `RE_TITLE_COLOR.sub(replace_color, text)`. -/
def colorSubF (repl : String → List Char) : Nat → List Char → List Char
  | 0, cs => cs
  | _ + 1, [] => []
  | fuel + 1, c :: rest =>
    match matchColor (c :: rest) with
    | some (w, r) => repl w ++ colorSubF repl fuel r
    | Option.none => c :: colorSubF repl fuel rest

/-- The `replace_color` closure of the module-level `stylize`, for each
shape of the `colors` collaborator. -/
def replaceColor : ColorsV → String → List Char
  | .noneV, _ => "[COLOR gray]".data
  | .fnV f, w => "[COLOR ".data ++ (f w).data ++ [']']
  | .mapV m, w => ((assocGet m w).getD "gray").data

/-- Custom-color substitution over a rendered text. -/
def colorSub (colors : ColorsV) (cs : List Char) : List Char :=
  colorSubF (replaceColor colors) (cs.length + 1) cs

/-- First occurrence split: `s.partition(pat)` restricted to a non-empty
pattern; `none` when the pattern does not occur. -/
def partST (pat : List Char) : List Char → Option (List Char × List Char)
  | [] => Option.none
  | c :: rest =>
    if pat.isPrefixOf (c :: rest) then some ([], (c :: rest).drop pat.length)
    else (partST pat rest).map fun p => (c :: p.1, p.2)

/-- Python `pat in s` for the patterns used by `format_field`. -/
def containsSub (pat : List Char) (cs : List Char) : Bool :=
  (partST pat cs).isSome

/-- Python `spec[-1:] in hay`: the empty slice is contained in anything. -/
def lastCharIn (cs : List Char) (hay : String) : Bool :=
  match cs.getLast? with
  | Option.none => true
  | some c => hay.data.contains c

/-- The unknown-field sentinel test of `format_field`:
`isinstance(value, str) and value[:1] == '{' and value[-1:] == '}'`. -/
def isUnknownSentinel : PyValue → Bool
  | .str s => s.data.head? = some '{' ∧ s.data.getLast? = some '}'
  | _ => false

/-- Zero-width space used by the bracket style token. -/
def zwspS : String := "​"

mutual

/-- Model of `SafeFormatter.vformat`: run the core formatter; in safe mode
any exception is logged and the function falls through, returning Python
`None` (modelled as `Option.none`); otherwise the exception propagates.
The evaluator construction at the top of the source function is abstracted
into `cfg.evaluator`. -/
def vformatTop : Nat → SafeFormatterCfg → List Char → List PyValue →
    List (String × PyValue) → List String → (Res (Option String)) × List String
  | 0, _, _, _, _, stack => (.error (.unsupported msgFuel), stack)
  | fuel + 1, cfg, tmpl, args, kwargs, stack =>
    match vformatCore fuel cfg 2 (some 0) tmpl args kwargs stack with
    | (.ok (res, _), st) => (.ok (some (String.mk res)), st)
    | (.error e, st) => if cfg.safe then (.ok Option.none, st) else (.error e, st)

/-- Model of `string.Formatter._vformat`: recursion-depth check, parse
(extended or standard, per `SafeFormatter.parse`), then token processing.
Parsing is eager; auto-numbering state is threaded exactly as in the
source. -/
def vformatCore : Nat → SafeFormatterCfg → Int → Option Nat → List Char →
    List PyValue → List (String × PyValue) → List String →
    (Res (List Char × Option Nat)) × List String
  | 0, _, _, _, _, _, _, stack => (.error (.unsupported msgFuel), stack)
  | fuel + 1, cfg, recDepth, autoIdx, tmpl, args, kwargs, stack =>
    if recDepth < 0 then (.error (.valueError "max string recursion exceeded"), stack)
    else
      let toksRes : Res (List FTok) :=
        if cfg.extended then
          match fparserF false (tmpl.length + 1) tmpl 0 emptyTok 0 [] with
          | .ok ts => .ok ts
          | .error m => .error (.valueError m)
        else stdParse (tmpl.length + 1) tmpl
      match toksRes with
      | .error e => (.error e, stack)
      | .ok toks => goTokens fuel cfg recDepth autoIdx toks args kwargs stack []

/-- Token-processing loop of `_vformat`: literal text, auto-numbering,
`get_field`, `convert_field`, recursive spec formatting, `format_field`. -/
def goTokens : Nat → SafeFormatterCfg → Int → Option Nat → List FTok →
    List PyValue → List (String × PyValue) → List String → List Char →
    (Res (List Char × Option Nat)) × List String
  | 0, _, _, _, _, _, _, stack, _ => (.error (.unsupported msgFuel), stack)
  | _ + 1, _, _, autoIdx, [], _, _, stack, acc => (.ok (acc, autoIdx), stack)
  | fuel + 1, cfg, recDepth, autoIdx, tok :: toks, args, kwargs, stack, acc =>
    let acc := acc ++ tok.lit
    match tok.fieldName with
    | Option.none => goTokens fuel cfg recDepth autoIdx toks args kwargs stack acc
    | some fname₀ =>
      let autoRes : Res (List Char × Option Nat) :=
        if fname₀.isEmpty then
          match autoIdx with
          | Option.none =>
            .error (.valueError "cannot switch from manual field specification to automatic field numbering")
          | some n => .ok (natToChars n, some (n + 1))
        else if pyIsdigit fname₀ then
          match autoIdx with
          | some n =>
            if n ≠ 0 then
              .error (.valueError "cannot switch from automatic field numbering to manual field specification")
            else .ok (fname₀, Option.none)
          | Option.none => .ok (fname₀, Option.none)
        else .ok (fname₀, autoIdx)
      match autoRes with
      | .error e => (.error e, stack)
      | .ok (fname, autoIdx₁) =>
        match SafeFormatter.get_field cfg fname args kwargs stack with
        | (.error e, st) => (.error e, st)
        | (.ok obj₀, st) =>
          match SafeFormatter.convert_field cfg obj₀ tok.conversion with
          | .error e => (.error e, st)
          | .ok obj =>
            match vformatCore fuel cfg (recDepth - 1) autoIdx₁ (tok.formatSpec.getD [])
                args kwargs st with
            | (.error e, st₂) => (.error e, st₂)
            | (.ok (specTxt, autoIdx₂), st₂) =>
              match formatFieldM fuel cfg obj specTxt st₂ with
              | (.error e, st₃) => (.error e, st₃)
              | (.ok res, st₃) =>
                goTokens fuel cfg recDepth autoIdx₂ toks args kwargs st₃ (acc ++ res)

/-- Model of `SafeFormatter.format_field`: pop the field name, handle the
`!!default` split (with its internal `except ValueError` coercion
fallback), the strict-mode `KeyError` for an undefaulted unknown sentinel,
then the actual formatting and the style cascade inside a `try` that in
safe mode degrades to a diagnostic placeholder. -/
def formatFieldM : Nat → SafeFormatterCfg → PyValue → List Char → List String →
    (Res (List Char)) × List String
  | 0, _, _, _, stack => (.error (.unsupported msgFuel), stack)
  | fuel + 1, cfg, value, formatSpec, stack =>
    match stack with
    | [] => (.error (.indexError "pop from empty list"), [])
    | fieldName :: stackRest =>
      let inputSpec := formatSpec
      let part := partST ['!', '!'] formatSpec
      let primary := match part with
        | some (b, _) => b
        | Option.none => formatSpec
      let sepFound := part.isSome
      let val := match part with
        | some (_, a) => a
        | Option.none => []
      let unknown := isUnknownSentinel value
      let branch : Res (PyValue × List Char) :=
        if sepFound ∧ unknown then
          match partST [':', ':'] val with
          | some (b, a) => .ok (.str (String.mk b), a)
          | Option.none =>
            if lastCharIn primary "bcdoxX" then
              match pyInt val with
              | .ok i => .ok (.int i, primary)
              | .error (.valueError _) => .ok (.str (String.mk val), ['s'])
              | .error e => .error e
            else if lastCharIn primary "eEfFgG" then
              .error (.unsupported "float default coercion outside the modelled subset")
            else .ok (.str (String.mk val), primary)
        else if unknown ∧ ¬ cfg.safe then
          .error (.keyError (String.mk (pyStr value)))
        else .ok (value, primary)
      match branch with
      | .error e => (.error e, stackRest)
      | .ok (value₂, primary₂) =>
        let tryRes : (Res (List Char)) × List String :=
          match pyFormat value₂ primary₂ with
          | .error e => (.error e, stackRest)
          | .ok res => styleLoopGo fuel cfg fieldName "" res stackRest
        match tryRes with
        | (.ok res, st) => (.ok res, st)
        | (.error e, st) =>
          if cfg.safe then
            (.ok ('{' :: pyRepr value₂ ++ ':' ::
              (squoteC :: (inputSpec.map reprEscChar).flatten ++ [squoteC]) ++ ['}']), st)
          else (.error e, st)

/-- Style-cascade loop of `format_field`: exact style, quote-normalised
style, the `*` stop, and the wildcard rewriting of the last part, guarded
by the consecutive-repetition assertion. -/
def styleLoopGo : Nat → SafeFormatterCfg → String → String → List Char →
    List String → (Res (List Char)) × List String
  | 0, _, _, _, _, stack => (.error (.unsupported msgFuel), stack)
  | fuel + 1, cfg, fieldName, lastFieldName, result, stack =>
    if fieldName = "" then (.ok result, stack)
    else if fieldName = lastFieldName then (.error .assertionError, stack)
    else
      let style₁ := match assocGet cfg.styles fieldName with
        | some s => some s
        | Option.none => assocGet cfg.styles (String.mk (normQuotes fieldName.data))
      match style₁ with
      | some st => sfStylize fuel cfg result st stack
      | Option.none =>
        if fieldName = "*" then (.ok result, stack)
        else
          match fieldNameMatch fieldName.data with
          | Option.none => (.ok result, stack)
          | some Option.none => styleLoopGo fuel cfg "*" fieldName result stack
          | some (some (pre, isBr)) =>
            let nxt := String.mk (pre ++ (if isBr then ['[', '*', ']'] else ['.', '*']))
            styleLoopGo fuel cfg nxt fieldName result stack

/-- Model of `SafeFormatter.stylize`: merge the instance `StylizeSettings`
with the per-call arguments (which are all absent in the `format_field`
call site) and delegate to the module-level `stylize`. -/
def sfStylize : Nat → SafeFormatterCfg → List Char → StyleVal → List String →
    (Res (List Char)) × List String
  | 0, _, _, _, stack => (.error (.unsupported msgFuel), stack)
  | fuel + 1, cfg, text, style, stack =>
    let ss := cfg.stylizeSettings
    let info₁ := match ss.kwargs with
      | some k => some k
      | Option.none => ss.info
    modStylize fuel cfg (some (String.mk text)) style info₁ ss.colors stack

/-- Model of the module-level `stylize` for a present style: apply the
style tokens innermost-first, then the custom-color substitution; a
non-string at the substitution is a `TypeError`. -/
def modStylize : Nat → SafeFormatterCfg → Option String → StyleVal →
    Option (List (String × PyValue)) → ColorsV → List String →
    (Res (List Char)) × List String
  | 0, _, _, _, _, _, stack => (.error (.unsupported msgFuel), stack)
  | fuel + 1, cfg, text, style, info, colors, stack =>
    let infoD : List (String × PyValue) := info.getD []
    let items := match style with
      | .one s => [s]
      | .many l => l
    match styleItems fuel cfg text items.reverse infoD stack with
    | (.error e, st) => (.error e, st)
    | (.ok text₂, st) =>
      match text₂ with
      | Option.none => (.error (.typeError "expected string or bytes-like object"), st)
      | some s => (.ok (colorSub colors s.data), st)

/-- Application of the (already reversed) style tokens: markup tag,
zero-width bracket pair, two-character bracket pair, or a nested format
template rendered by `formatter.format` on the same instance. -/
def styleItems : Nat → SafeFormatterCfg → Option String → List String →
    List (String × PyValue) → List String → (Res (Option String)) × List String
  | 0, _, _, _, _, stack => (.error (.unsupported msgFuel), stack)
  | _ + 1, _, text, [], _, stack => (.ok text, stack)
  | fuel + 1, cfg, text, s :: rest, info, stack =>
    let dispT := text.getD "None"
    let next : (Res (Option String)) × List String :=
      if s = "" then (.ok text, stack)
      else if (s.data.head?.map Char.isAlpha).getD false then
        (.ok (some ("[" ++ s ++ "]" ++ dispT ++ "[/" ++
          String.mk (s.data.takeWhile (fun c => ¬ c.isWhitespace)) ++ "]")), stack)
      else if s = "[]" then
        (.ok (some ("[" ++ zwspS ++ dispT ++ zwspS ++ "]")), stack)
      else if s.data.length ≤ 2 then
        match s.data.head?, s.data.getLast? with
        | some h, some l => (.ok (some (String.mk (h :: dispT.data ++ [l]))), stack)
        | _, _ => (.ok text, stack)
      else
        let textVal : PyValue := match text with
          | some t => .str t
          | Option.none => .none
        vformatTop fuel cfg s.data [textVal]
          [("text", textVal), ("info", .dict info)] stack
    match next with
    | (.ok text₂, st) => styleItems fuel cfg text₂ rest info st
    | (.error e, st) => (.error e, st)

end

/-- Match the field alternative of `re_sectfmt_split`
(`(?<!\{)\{(?!\{)[^}]*\}`) at the head of the input, given the previous
character of the original string for the lookbehind. -/
def isFieldStart (prev : Option Char) (cs : List Char) : Option (List Char × List Char) :=
  match cs with
  | '{' :: rest =>
    if prev = some '{' then Option.none
    else if rest.head? = some '{' then Option.none
    else
      let body := rest.takeWhile (fun c => ¬ c = '}')
      match rest.dropWhile (fun c => ¬ c = '}') with
      | '}' :: r => some ('{' :: body ++ ['}'], r)
      | _ => Option.none
  | _ => Option.none

mutual

/-- Match one bracketed section of `re_sectfmt_split` at the head of the
input: an opening bracket not preceded by a backslash or percent, then the
balanced interior up to the matching closing bracket.  `depth` is the
remaining nested-section budget of the depth-capped regex (3 at the top). -/
def matchSect : Nat → Nat → Option Char → List Char → Option (List Char × List Char)
  | 0, _, _, _ => Option.none
  | fuel + 1, depth, prev, cs =>
    match cs with
    | '[' :: rest =>
      if prev = some bslashC ∨ prev = some '%' then Option.none
      else
        match sectInner fuel depth '[' rest with
        | some (inner, r) => some ('[' :: inner, r)
        | Option.none => Option.none
    | _ => Option.none

/-- Interior scan of a bracketed section, with the backtracking of the
regex alternation: backslash escape, percent escape, nested section (while
depth remains), opaque field, then any character other than the closing
bracket; a unit whose continuation fails is retried with the next
alternative.  Returns the interior including the closing bracket. -/
def sectInner : Nat → Nat → Char → List Char → Option (List Char × List Char)
  | 0, _, _, _ => Option.none
  | fuel + 1, depth, prev, cs =>
    match cs with
    | [] => Option.none
    | ']' :: rest => some ([']'], rest)
    | c :: rest =>
      let cand1 : Option (List Char × List Char) :=
        if c = bslashC then
          match rest with
          | d :: r => some ([bslashC, d], r)
          | [] => Option.none
        else Option.none
      let cand2 : Option (List Char × List Char) :=
        if c = '%' then
          match rest with
          | d :: r =>
            if d = ']' ∨ d = '[' ∨ d = '%' ∨ d = bslashC then some (['%', d], r)
            else Option.none
          | [] => Option.none
        else Option.none
      let cand3 : Option (List Char × List Char) :=
        if 0 < depth then matchSect fuel (depth - 1) (some prev) cs else Option.none
      let cand4 : Option (List Char × List Char) := isFieldStart (some prev) cs
      let cand5 : Option (List Char × List Char) := some ([c], rest)
      match sectTry fuel depth prev cand1 with
      | some res => some res
      | Option.none =>
        match sectTry fuel depth prev cand2 with
        | some res => some res
        | Option.none =>
          match sectTry fuel depth prev cand3 with
          | some res => some res
          | Option.none =>
            match sectTry fuel depth prev cand4 with
            | some res => some res
            | Option.none => sectTry fuel depth prev cand5

/-- Continuation step of the backtracking interior scan: if the candidate
unit parses, scan the rest of the interior after it. -/
def sectTry : Nat → Nat → Char → Option (List Char × List Char) →
    Option (List Char × List Char)
  | 0, _, _, _ => Option.none
  | fuel + 1, depth, prev, cand =>
    match cand with
    | some (u, r) =>
      match sectInner fuel depth (u.getLastD prev) r with
      | some (tail, r₂) => some (u ++ tail, r₂)
      | Option.none => Option.none
    | Option.none => Option.none

end

/-- Top-level scan of `re_sectfmt_split.split(fmt)`: alternate unmatched
text with matches (a depth-3 section or an opaque field), leftmost and
non-overlapping, tracking the previous character for the lookbehinds. -/
def sectSplitGo : Nat → Option Char → List Char → List Char → List String → List String
  | 0, _, cs, cur, acc => acc ++ [String.mk (cur ++ cs)]
  | _ + 1, _, [], cur, acc => acc ++ [String.mk cur]
  | fuel + 1, prev, c :: rest, cur, acc =>
    match matchSect (rest.length + 2) 3 prev (c :: rest) with
    | some (m, r) =>
      sectSplitGo fuel (some (m.getLastD c)) r [] (acc ++ [String.mk cur, String.mk m])
    | Option.none =>
      match isFieldStart prev (c :: rest) with
      | some (m, r) =>
        sectSplitGo fuel (some (m.getLastD c)) r [] (acc ++ [String.mk cur, String.mk m])
      | Option.none => sectSplitGo fuel (some c) rest (cur ++ [c]) acc

/-- Model of `re_sectfmt_split.split`. -/
def sectSplit (cs : List Char) : List String :=
  sectSplitGo (cs.length + 1) Option.none cs [] []

/-- Model of `re_sectfmt_text.sub(r'\1', text)`: unescape `%x` and `\x`
for `x` among bracket, percent and backslash. -/
def sectUnescape : List Char → List Char
  | [] => []
  | [c] => [c]
  | c :: d :: r =>
    if (c = '%' ∨ c = bslashC) ∧ (d = ']' ∨ d = '[' ∨ d = '%' ∨ d = bslashC) then
      d :: sectUnescape r
    else c :: sectUnescape (d :: r)

/-- The `join` generator inside `_vsectfmt`: walk the split alternation,
emitting `(False, literal)` runs and `(True, interior)` sections; a match
that is not bracketed (an opaque field) is folded into the literal run. -/
def joinParts : List String → Bool → List Char → List (Bool × List Char)
  | [], _, text => [(false, text)]
  | s :: rest, odd, text =>
    if odd then
      match s.data with
      | '[' :: _ =>
        (false, text) :: (true, (s.data.drop 1).dropLast) :: joinParts rest false []
      | _ => joinParts rest false (text ++ s.data)
    else joinParts rest true (text ++ s.data)

/-- Element of a neighbour window: the fill marker (`False` in the call
site, which is not `None`) or a part value. -/
inductive PItem where
  | fill
  | val (v : Option String)

/-- Python `x is not None` over a window element. -/
def notNone : PItem → Bool
  | .fill => true
  | .val Option.none => false
  | .val (some _) => true

/-- Modelled from the spec: `neighbor_iter` lives in `lib/libka/iter.py`,
which is not under `src/`.  Per the spec's join rule (§4.4 step 5:
failed/absent neighbour pairs are filtered out pairwise before the final
concatenation) and the reference output of the `sectfmt` docstring example
in the source (`'[a={a}], [b={b}][: ][c={c}], [{a}/{c}]'` with `a=42`
giving `'a=42: '`), it yields `(previous, current, next)` windows over the
parts, with the supplied fill at both ends. -/
def neighborGo : PItem → List (Option String) → List (PItem × PItem × PItem)
  | _, [] => []
  | prev, x :: rest =>
    let nxt : PItem := match rest.head? with
      | some y => .val y
      | Option.none => .fill
    (prev, .val x, nxt) :: neighborGo (.val x) rest

/-- Modelled from the spec: see `neighborGo`; this is
`neighbor_iter(parts, False)`. -/
def neighbor_iter (xs : List (Option String)) : List (PItem × PItem × PItem) :=
  neighborGo .fill xs

/-- Exceptions caught by `_vsectfmt`:
`(KeyError, AttributeError, ValueError)`. -/
def isCaughtSect : PyErr → Bool
  | .keyError _ => true
  | .attributeError _ => true
  | .valueError _ => true
  | _ => false

mutual

/-- Per-part rendering of `_vsectfmt`: a bracketed section recurses, a
literal run is unescaped and rendered by the shared strict formatter; the
first escaping exception aborts the whole level (the generator is consumed
inside the enclosing `try`). -/
def vsectParts : Nat → SafeFormatterCfg → List (Bool × List Char) → List PyValue →
    List (String × PyValue) → List String → (Res (List (Option String))) × List String
  | 0, _, _, _, _, stack => (.error (.unsupported msgFuel), stack)
  | _ + 1, _, [], _, _, stack => (.ok [], stack)
  | fuel + 1, cfg, (sect, text) :: rest, args, kwargs, stack =>
    let cur : (Res (Option String)) × List String :=
      if sect then vsectfmtCore fuel cfg text args kwargs stack
      else vformatTop fuel cfg (sectUnescape text) args kwargs stack
    match cur with
    | (.error e, st) => (.error e, st)
    | (.ok v, st) =>
      match vsectParts fuel cfg rest args kwargs st with
      | (.ok vs, st₂) => (.ok (v :: vs), st₂)
      | (.error e, st₂) => (.error e, st₂)

/-- Model of `_vsectfmt`: split, render the parts, drop every part whose
neighbour window touches a failed part, and join; `KeyError`,
`AttributeError` and `ValueError` make the level return `None`. -/
def vsectfmtCore : Nat → SafeFormatterCfg → List Char → List PyValue →
    List (String × PyValue) → List String → (Res (Option String)) × List String
  | 0, _, _, _, _, stack => (.error (.unsupported msgFuel), stack)
  | fuel + 1, cfg, fmt, args, kwargs, stack =>
    let pieces := joinParts (sectSplit fmt) false []
    match vsectParts fuel cfg pieces args kwargs stack with
    | (.ok parts, st) =>
      let kept := (neighbor_iter parts).filterMap fun w =>
        if notNone w.1 ∧ notNone w.2.1 ∧ notNone w.2.2 then
          match w.2.1 with
          | .val (some s) => some s.data
          | _ => Option.none
        else Option.none
      (.ok (some (String.mk kept.flatten)), st)
    | (.error e, st) =>
      if isCaughtSect e then (.ok Option.none, st)
      else (.error e, st)

end

/-- Model of `vsectfmt`: a fresh strict formatter with
`raise_empty = not allow_empty`, then `_vsectfmt(...) or ''`. -/
def vsectfmt (fuel : Nat) (fmt : String) (args : List PyValue)
    (kwargs : List (String × PyValue)) (allowEmpty : Bool) : Res String :=
  let cfg := mkFormatter false (!allowEmpty)
  match vsectfmtCore fuel cfg fmt.data args kwargs [] with
  | (.ok (some s), _) => .ok s
  | (.ok Option.none, _) => .ok ""
  | (.error e, _) => .error e

/-- Model of `sectfmt(fmt, *args, **kwargs)`. -/
def sectfmt (fuel : Nat) (fmt : String) (args : List PyValue)
    (kwargs : List (String × PyValue)) : Res String :=
  vsectfmt fuel fmt args kwargs false

/-- Decidable equality of results (used by concrete evaluations). -/
instance {ε α : Type} [DecidableEq ε] [DecidableEq α] : DecidableEq (Except ε α) := fun a b =>
  match a, b with
  | .ok x, .ok y =>
    match decEq x y with
    | isTrue h => isTrue (by rw [h])
    | isFalse h => isFalse (by intro hh; injection hh; contradiction)
  | .ok _, .error _ => isFalse (by intro hh; injection hh)
  | .error _, .ok _ => isFalse (by intro hh; injection hh)
  | .error x, .error y =>
    match decEq x y with
    | isTrue h => isTrue (by rw [h])
    | isFalse h => isFalse (by intro hh; injection hh; contradiction)

/-- The style rule table of the cascade scenario
`{"c.x": "X", "c.*": "Y", "c[*]": "Z"}`. -/
def cascadeStyles : List (String × StyleVal) :=
  [("c.x", .one "X"), ("c.*", .one "Y"), ("c[*]", .one "Z")]

/-- A formatter configured with the cascade scenario styles. -/
def cascadeCfg : SafeFormatterCfg := mkFormatterStyles cascadeStyles

theorem qscan1_length_aux (q : Char) :
    ∀ (n : Nat) (cs : List Char), cs.length ≤ n →
      ∀ b r, qscan1 q cs = some (b, r) → r.length < cs.length := by
  intro n
  induction n with
  | zero =>
    intro cs hlen b r h
    have hnil : cs = [] := List.length_eq_zero.mp (Nat.le_zero.mp hlen)
    subst hnil
    simp [qscan1] at h
  | succ k ih =>
    intro cs hlen b r h
    cases cs with
    | nil => simp [qscan1] at h
    | cons c rest =>
      cases rest with
      | nil =>
        simp only [qscan1] at h
        by_cases hq : c = q
        · rw [if_pos hq] at h
          cases h
          simp
        · rw [if_neg hq] at h
          exact Option.noConfusion h
      | cons d rest₂ =>
        simp only [qscan1] at h
        by_cases hq : c = q
        · rw [if_pos hq] at h
          cases h
          simp
        · rw [if_neg hq] at h
          by_cases hb : c = bslashC
          · rw [if_pos hb] at h
            cases hrec : qscan1 q rest₂ with
            | some p =>
              rw [hrec] at h
              cases h
              have hlen₂ : rest₂.length ≤ k := by
                simp only [List.length_cons] at hlen
                omega
              have := ih rest₂ hlen₂ p.1 p.2 (by rw [hrec])
              simp only [List.length_cons]
              omega
            | none =>
              rw [hrec] at h
              cases hrec₂ : qscan1 q (d :: rest₂) with
              | some p =>
                rw [hrec₂] at h
                cases h
                have hlen₂ : (d :: rest₂).length ≤ k := by
                  simp only [List.length_cons] at hlen ⊢
                  omega
                have := ih (d :: rest₂) hlen₂ p.1 p.2 (by rw [hrec₂])
                simp only [List.length_cons] at *
                omega
              | none => rw [hrec₂] at h; exact Option.noConfusion h
          · rw [if_neg hb] at h
            cases hrec : qscan1 q (d :: rest₂) with
            | none => rw [hrec] at h; exact Option.noConfusion h
            | some p =>
              rw [hrec] at h
              simp only [Option.map_some'] at h
              cases h
              have hlen₂ : (d :: rest₂).length ≤ k := by
                simp only [List.length_cons] at hlen ⊢
                omega
              have := ih (d :: rest₂) hlen₂ p.1 p.2 (by rw [hrec])
              simp only [List.length_cons] at *
              omega

theorem qscan1_length (q : Char) (cs : List Char) (b r : List Char)
    (h : qscan1 q cs = some (b, r)) : r.length < cs.length :=
  qscan1_length_aux q cs.length cs (Nat.le_refl _) b r h

theorem qscan3_length_aux (q : Char) :
    ∀ (n : Nat) (cs : List Char), cs.length ≤ n →
      ∀ b r, qscan3 q cs = some (b, r) → r.length < cs.length := by
  intro n
  induction n with
  | zero =>
    intro cs hlen b r h
    have hnil : cs = [] := List.length_eq_zero.mp (Nat.le_zero.mp hlen)
    subst hnil
    simp [qscan3] at h
  | succ k ih =>
    intro cs hlen b r h
    cases cs with
    | nil => simp [qscan3] at h
    | cons c rest =>
      cases rest with
      | nil => simp [qscan3] at h
      | cons d rest₂ =>
        cases rest₂ with
        | nil => simp [qscan3] at h
        | cons e rest₃ =>
          simp only [qscan3] at h
          by_cases hq : c = q ∧ d = q ∧ e = q
          · rw [if_pos hq] at h
            cases h
            simp only [List.length_cons]
            omega
          · rw [if_neg hq] at h
            by_cases hb : c = bslashC
            · rw [if_pos hb] at h
              cases hrec : qscan3 q (e :: rest₃) with
              | some p =>
                rw [hrec] at h
                cases h
                have hlen₂ : (e :: rest₃).length ≤ k := by
                  simp only [List.length_cons] at hlen ⊢
                  omega
                have := ih (e :: rest₃) hlen₂ p.1 p.2 (by rw [hrec])
                simp only [List.length_cons] at *
                omega
              | none =>
                rw [hrec] at h
                cases hrec₂ : qscan3 q (d :: e :: rest₃) with
                | some p =>
                  rw [hrec₂] at h
                  cases h
                  have hlen₂ : (d :: e :: rest₃).length ≤ k := by
                    simp only [List.length_cons] at hlen ⊢
                    omega
                  have := ih (d :: e :: rest₃) hlen₂ p.1 p.2 (by rw [hrec₂])
                  simp only [List.length_cons] at *
                  omega
                | none => rw [hrec₂] at h; exact Option.noConfusion h
            · rw [if_neg hb] at h
              cases hrec : qscan3 q (d :: e :: rest₃) with
              | none => rw [hrec] at h; exact Option.noConfusion h
              | some p =>
                rw [hrec] at h
                simp only [Option.map_some'] at h
                cases h
                have hlen₂ : (d :: e :: rest₃).length ≤ k := by
                  simp only [List.length_cons] at hlen ⊢
                  omega
                have := ih (d :: e :: rest₃) hlen₂ p.1 p.2 (by rw [hrec])
                simp only [List.length_cons] at *
                omega

theorem qscan3_length (q : Char) (cs : List Char) (b r : List Char)
    (h : qscan3 q cs = some (b, r)) : r.length < cs.length :=
  qscan3_length_aux q cs.length cs (Nat.le_refl _) b r h

theorem matchQuote_length (cs : List Char) (t : Bool) (b r : List Char)
    (h : matchQuote cs = some (t, b, r)) : r.length < cs.length := by
  cases cs with
  | nil => simp [matchQuote] at h
  | cons c rest =>
    simp only [matchQuote] at h
    by_cases hq : c = '\"' ∨ c = squoteC
    · rw [if_pos hq] at h
      have hsingle : ∀ p : List Char × List Char, qscan1 c rest = some p →
          p.2.length < (c :: rest).length := by
        intro p hp
        have := qscan1_length c rest p.1 p.2 (by rw [hp])
        simp only [List.length_cons]
        omega
      by_cases htr : rest.head? = some c ∧ rest.tail.head? = some c
      · rw [if_pos htr] at h
        cases hrec3 : qscan3 c rest.tail.tail with
        | some p =>
          rw [hrec3] at h
          cases h
          have h₃ := qscan3_length c rest.tail.tail p.1 p.2 (by rw [hrec3])
          have htail : rest.tail.tail.length ≤ rest.length := by
            cases rest with
            | nil => simp
            | cons x xs =>
              cases xs with
              | nil => simp
              | cons y ys => simp; omega
          simp only [List.length_cons]
          omega
        | none =>
          rw [hrec3] at h
          cases hrec1 : qscan1 c rest with
          | some p =>
            rw [hrec1] at h
            simp only [Option.map_some'] at h
            cases h
            exact hsingle p hrec1
          | none => rw [hrec1] at h; exact Option.noConfusion h
      · rw [if_neg htr] at h
        cases hrec1 : qscan1 c rest with
        | some p =>
          rw [hrec1] at h
          simp only [Option.map_some'] at h
          cases h
          exact hsingle p hrec1
        | none => rw [hrec1] at h; exact Option.noConfusion h
    · rw [if_neg hq] at h
      exact Option.noConfusion h

theorem stepOf_length (lvl : Nat) (cs : List Char) (st : FStep)
    (h : stepOf lvl cs = some st) : st.rest.length < cs.length := by
  cases cs with
  | nil => simp [stepOf] at h
  | cons c rest =>
    simp only [stepOf] at h
    by_cases h2 : (c = '{' ∨ c = '}') ∧ rest.head? = some c
    · rw [if_pos h2] at h
      cases h
      have := h2.2
      cases rest with
      | nil => simp at this
      | cons d rest₂ => simp [FStep.rest]; omega
    · rw [if_neg h2] at h
      by_cases ho : c = '{'
      · rw [if_pos ho] at h
        cases h
        simp [FStep.rest]
      · rw [if_neg ho] at h
        by_cases hc : c = '}'
        · rw [if_pos hc] at h
          cases h
          simp [FStep.rest]
        · rw [if_neg hc] at h
          by_cases hql : 0 < lvl ∧ (c = '\"' ∨ c = squoteC)
          · rw [if_pos hql] at h
            cases hmq : matchQuote (c :: rest) with
            | some p =>
              obtain ⟨t, b, r⟩ := p
              rw [hmq] at h
              cases h
              have := matchQuote_length (c :: rest) t b r hmq
              simpa [FStep.rest] using this
            | none =>
              rw [hmq] at h
              cases h
              simp [FStep.rest]
          · rw [if_neg hql] at h
            cases h
            simp [FStep.rest]

theorem fparser_scan_align (eol : Bool) :
    ∀ (fuel : Nat) (cs : List Char) (lvl : Nat) (vec : FTok) (oi : Nat) (acc : List FTok),
      cs.length < fuel →
      fkind (fparserF eol fuel cs lvl vec oi acc) = scanF fuel cs lvl ∧
        scanF fuel cs lvl ≠ .stuck := by
  intro fuel
  induction fuel with
  | zero =>
    intro cs lvl vec oi acc hlen
    omega
  | succ k ih =>
    intro cs lvl vec oi acc hlen
    have hk : ∀ st : FStep, stepOf lvl cs = some st → st.rest.length < k := by
      intro st hst
      have := stepOf_length lvl cs st hst
      omega
    cases hstep : stepOf lvl cs with
    | none =>
      simp only [fparserF, scanF, hstep]
      by_cases hl : lvl ≠ 0
      · rw [if_pos hl, if_pos hl]
        exact ⟨by simp [fkind, msgLoneOpen, msgLoneClose], by simp⟩
      · rw [if_neg hl, if_neg hl]
        refine ⟨?_, by simp⟩
        by_cases hv : strTruthy vec.lit = true ∨ vec.fieldName ≠ Option.none
        · rw [if_pos hv]; rfl
        · rw [if_neg hv]; rfl
    | some st =>
      cases st with
      | two c rest =>
        simp only [fparserF, scanF, hstep]
        exact ih rest lvl (addVec vec oi [c]) oi acc (hk _ hstep)
      | openB rest =>
        simp only [fparserF, scanF, hstep]
        by_cases hl : lvl = 0
        · rw [if_pos hl]
          exact ih rest (lvl + 1) _ 1 acc (hk _ hstep)
        · rw [if_neg hl]
          exact ih rest (lvl + 1) _ oi acc (hk _ hstep)
      | closeB rest =>
        simp only [fparserF, scanF, hstep]
        by_cases hl : lvl = 0
        · rw [if_pos hl, if_pos hl]
          exact ⟨by simp [fkind, msgLoneOpen, msgLoneClose], by simp⟩
        · rw [if_neg hl, if_neg hl]
          by_cases h1 : lvl = 1
          · rw [if_pos h1]
            exact ih rest (lvl - 1) emptyTok 0 (acc ++ [vec]) (hk _ hstep)
          · rw [if_neg h1]
            exact ih rest (lvl - 1) _ oi acc (hk _ hstep)
      | qspan q t b rest =>
        simp only [fparserF, scanF, hstep]
        exact ih rest lvl _ oi acc (hk _ hstep)
      | one c rest =>
        simp only [fparserF, scanF, hstep]
        by_cases hc1 : lvl = 1 ∧ c = '!' ∧ oi = 1
        · rw [if_pos hc1]
          exact ih rest lvl _ 3 acc (hk _ hstep)
        · rw [if_neg hc1]
          by_cases hc2 : lvl = 1 ∧ c = ':' ∧ (oi = 1 ∨ oi = 3)
          · rw [if_pos hc2]
            exact ih rest lvl _ 2 acc (hk _ hstep)
          · rw [if_neg hc2]
            exact ih rest lvl _ oi acc (hk _ hstep)

theorem takeWhile_of_all {p : Char → Bool} :
    ∀ l : List Char, (∀ c ∈ l, p c = true) → l.takeWhile p = l ∧ l.dropWhile p = [] := by
  intro l h
  induction l with
  | nil => simp
  | cons c rest ih =>
    have hc : p c = true := h c (by simp)
    have hrest := ih (fun d hd => h d (by simp [hd]))
    simp [List.takeWhile, List.dropWhile, hc, hrest.1, hrest.2]

theorem fieldNameSplit_digits (name : List Char) (hdig : pyIsdigit name = true) :
    fieldNameSplit name = .ok (.pos (digitsToNat name), []) := by
  have hall : ∀ c ∈ name, (¬ (c = '.' ∨ c = '[') : Bool) = true := by
    intro c hc
    have : c.isDigit = true := by
      simp only [pyIsdigit, Bool.and_eq_true, List.all_eq_true] at hdig
      exact hdig.2 c hc
    simp only [decide_eq_true_eq]
    intro hor
    cases hor with
    | inl h => subst h; simp [Char.isDigit] at this
    | inr h => subst h; simp [Char.isDigit] at this
  have htw := takeWhile_of_all name hall
  unfold fieldNameSplit
  rw [htw.1, htw.2]
  simp [splitItems, hdig, Bind.bind, Except.bind, pure, Except.pure]

theorem fkind_balanced_iff (r : Except String (List FTok)) :
    fkind r = .balanced ↔ ∃ ts, r = .ok ts := by
  cases r with
  | ok ts => simp [fkind]
  | error m =>
    simp only [fkind]
    constructor
    · intro h
      by_cases h1 : m = msgLoneClose
      · rw [if_pos h1] at h; cases h
      · rw [if_neg h1] at h
        by_cases h2 : m = msgLoneOpen
        · rw [if_pos h2] at h; cases h
        · rw [if_neg h2] at h; cases h
    · intro ⟨ts, hts⟩
      cases hts

/-- C1 — counterexample.  The claim says a safe-mode formatter returns the
partially rendered text (a string, never `None`) when formatting as a
whole fails.  On the template consisting of a single closing brace the
parse fails, the exception is caught, and `vformat` falls through the
`except` clause returning Python `None`. -/
theorem C1_counterexample :
    vformatTop 100 (mkFormatter true false) (String.data (String.mk ['}'])) [] [] [] =
      (.ok Option.none, ([] : List String)) := by rfl

/-- C1 — amended.  In safe mode `vformat` indeed never raises, but on
whole-formatting failure it returns Python `None` rather than any string:
the result is `None` exactly when the core formatter fails. -/
theorem C1_amended (fuel : Nat) (cfg : SafeFormatterCfg) (tmpl : List Char)
    (args : List PyValue) (kwargs : List (String × PyValue)) (st : List String)
    (hsafe : cfg.safe = true) :
    (∀ e, (vformatTop (fuel + 1) cfg tmpl args kwargs st).1 ≠ .error e) ∧
    ((vformatTop (fuel + 1) cfg tmpl args kwargs st).1 = .ok Option.none ↔
      ∃ e st₂, vformatCore fuel cfg 2 (some 0) tmpl args kwargs st = (.error e, st₂)) := by
  simp only [vformatTop]
  cases hcore : vformatCore fuel cfg 2 (some 0) tmpl args kwargs st with
  | mk r st₂ =>
    cases r with
    | ok p =>
      refine ⟨by simp, ?_⟩
      simp
    | error e =>
      rw [hsafe]
      refine ⟨by simp, ?_⟩
      simp

theorem C1_amended_witness :
    (∀ e, (vformatTop 100 (mkFormatter true false) (String.data (String.mk ['}'])) [] [] []).1 ≠
      .error e) ∧
    ((vformatTop 100 (mkFormatter true false) (String.data (String.mk ['}'])) [] [] []).1 =
        .ok Option.none ↔
      ∃ e st₂, vformatCore 99 (mkFormatter true false) 2 (some 0)
        (String.data (String.mk ['}'])) [] [] [] = (.error e, st₂)) :=
  C1_amended 99 (mkFormatter true false) (String.data (String.mk ['}'])) [] [] [] rfl

/-- C2 — counterexample.  The claim says the public section-formatting
entry point never raises.  With a purely positional field and no
positional arguments, the missing-positional `IndexError` is outside the
`(KeyError, AttributeError, ValueError)` clause of `_vsectfmt` and
escapes `sectfmt`. -/
theorem C2_counterexample :
    sectfmt 200 "{0}" [] [] = .error (.indexError "tuple index out of range") := by rfl

/-- C2 — amended.  The section entry point never lets a `KeyError`,
`AttributeError` or `ValueError` escape (on total failure of those kinds
it returns the empty string, as the concrete conjunct shows), but
exceptions outside that clause — such as the missing-positional
`IndexError` — propagate to the caller. -/
theorem C2_amended :
    (∀ (fuel : Nat) (fmt : String) (args : List PyValue)
        (kwargs : List (String × PyValue)) (allowEmpty : Bool) (e : PyErr),
      vsectfmt fuel fmt args kwargs allowEmpty = .error e → isCaughtSect e = false) ∧
    sectfmt 200 "[{b}]" [] [] = .ok "" := by
  constructor
  · intro fuel fmt args kwargs ae e h
    unfold vsectfmt at h
    cases fuel with
    | zero =>
      simp only [vsectfmtCore] at h
      cases h
      rfl
    | succ k =>
      simp only [vsectfmtCore] at h
      cases hp : vsectParts k (mkFormatter false (!ae)) (joinParts (sectSplit fmt.data) false [])
          args kwargs [] with
      | mk r st =>
        cases r with
        | ok parts => rw [hp] at h; simp at h
        | error e₂ =>
          rw [hp] at h
          by_cases hc : isCaughtSect e₂ = true
          · simp [hc] at h
          · simp [hc] at h
            rw [← h]
            simpa using hc
  · rfl

theorem C2_amended_witness :
    isCaughtSect (.indexError "tuple index out of range") = false ∧ sectfmt 200 "[{b}]" [] [] = .ok "" :=
  ⟨C2_amended.1 200 "{0}" [] [] false (.indexError "tuple index out of range") (by rfl),
   C2_amended.2⟩

/-- C3 — counterexample.  The claim expects
`sectfmt("[a={a}], [b={b}]", a=42)` to render `"a=42, "`; the code keeps a
literal only when both its neighbour parts succeeded, so the `", "`
adjacent to the dropped `b` section is dropped too and the result is
`"a=42"`. -/
theorem C3_counterexample :
    sectfmt 200 "[a={a}], [b={b}]" [] [("a", PyValue.int 42)] = .ok "a=42" ∧
    (Except.ok "a=42" : Res String) ≠ .ok "a=42, " := by
  refine ⟨by rfl, ?_⟩
  intro h
  injection h with h₁
  exact absurd h₁ (by decide)

/-- C3 — amended.  The end-to-end scenario renders `"Serial – S02E03"` as
claimed; the second scenario drops the `", "` literal together with the
failed `b` section, rendering `"a=42"` (not `"a=42, "`): a literal
survives only when the parts on both sides of it survived. -/
theorem C3_amended :
    sectfmt 300 "[{series} – ][S{season:02d}][E{episode:02d}][: {title}]" []
      [("series", .str "Serial"), ("season", .int 2), ("episode", .int 3),
       ("title", .str "")] = .ok "Serial – S02E03" ∧
    sectfmt 200 "[a={a}], [b={b}]" [] [("a", PyValue.int 42)] = .ok "a=42" := by
  exact ⟨by rfl, by rfl⟩

/-- C4 — counterexample.  The claim says an out-of-range positional index
propagates even in safe mode.  In safe mode `get_value` replaces the
`IndexError` with the literal placeholder, and the whole format call
succeeds, rendering the placeholder. -/
theorem C4_counterexample :
    vformatTop 100 (mkFormatter true false) "{5}".data [] [] [] =
      (.ok (some "{5}"), ([] : List String)) := by rfl

/-- C4 — amended.  Only in strict mode (`safe=False`) is a purely numeric
out-of-range field a hard failure: `get_field` re-raises the `IndexError`
(after unwinding its stack push) for every digit-only field name whose
index is at or beyond the number of positional arguments, never falling
through to the evaluator or the placeholder; in safe mode `get_value`
substitutes the literal placeholder instead (see the counterexample). -/
theorem C4_amended (cfg : SafeFormatterCfg) (name : List Char) (args : List PyValue)
    (kwargs : List (String × PyValue)) (st : List String)
    (hstrict : cfg.safe = false) (hdig : pyIsdigit name = true)
    (hlen : args.length ≤ digitsToNat name) :
    SafeFormatter.get_field cfg name args kwargs st =
      (.error (.indexError "tuple index out of range"), st) := by
  have hsplit := fieldNameSplit_digits name hdig
  have hget : rawGetValue (.pos (digitsToNat name)) args kwargs =
      .error (.indexError "tuple index out of range") := by
    simp [rawGetValue, List.getElem?_eq_none hlen]
  have hval : SafeFormatter.get_value cfg (.pos (digitsToNat name)) args kwargs =
      .error (.indexError "tuple index out of range") := by
    unfold SafeFormatter.get_value
    rw [hget, hstrict]
    simp
  have hstd : stdGetField cfg name args kwargs =
      .error (.indexError "tuple index out of range") := by
    unfold stdGetField
    rw [hsplit]
    simp [Bind.bind, Except.bind, hval]
  unfold SafeFormatter.get_field
  rw [hstd]
  simp [isKAIErr, hdig]

theorem C4_amended_witness :
    SafeFormatter.get_field (mkFormatter false true) ['7'] [] [] [] =
      (.error (.indexError "tuple index out of range"), []) :=
  C4_amended (mkFormatter false true) ['7'] [] [] [] rfl (by decide) (by decide)

/-- C7 — confirmed.  With the rule table of `cascadeStyles`, the cascade
inside `format_field` selects the exact style `X` for the path `c.x`, the
dot-wildcard style `Y` for `c.y`, and the bracket-wildcard style `Z` for
`c[0]`, as witnessed by the markup wrap each selected style applies. -/
theorem C7_style_cascade :
    (styleLoopGo 100 cascadeCfg "c.x" "" "R".data []).1 = .ok "[X]R[/X]".data ∧
    (styleLoopGo 100 cascadeCfg "c.y" "" "R".data []).1 = .ok "[Y]R[/Y]".data ∧
    (styleLoopGo 100 cascadeCfg "c[0]" "" "R".data []).1 = .ok "[Z]R[/Z]".data := by
  exact ⟨by rfl, by rfl, by rfl⟩

/-- C8 — the claim states the per-instance field-name stack is unwound on
every error path.  On the `raise_empty` path the `ValueError` raised by
`get_value` is outside the `(KeyError, AttributeError, IndexError)` clause
of `get_field`, so the pushed name is never popped: after the (handled)
failure the instance stack still holds the field name. -/
theorem C8_stack_leak :
    vformatTop 100 (mkFormatter true true) "{a}".data [] [("a", PyValue.str "")] [] =
      (.ok Option.none, ["a"]) ∧ (["a"] : List String) ≠ [] := by
  exact ⟨by rfl, by decide⟩

/-- C9 — confirmed.  The tokenizer fails exactly on unbalanced templates:
its outcome class always equals the independent brace-depth scan (which
reports a closing brace at depth zero, or end of input at positive
depth), the scan never gets stuck at the chosen fuel, success is
equivalent to balancedness, and the two one-character unbalanced
templates exhibit each error concretely. -/
theorem C9_unbalanced_delimiters (s : String) :
    fkind (fparser s) = braceScan s ∧ braceScan s ≠ .stuck ∧
    ((∃ ts, fparser s = .ok ts) ↔ braceScan s = .balanced) ∧
    braceScan (String.mk ['}']) = .loneClose ∧
    braceScan (String.mk ['{']) = .loneOpen := by
  have h := fparser_scan_align false (s.data.length + 1) s.data 0 emptyTok 0 []
    (by omega)
  refine ⟨h.1, h.2, ?_, by rfl, by rfl⟩
  have hb : fkind (fparser s) = braceScan s := h.1
  rw [← hb]
  exact (fkind_balanced_iff _).symm

/-- C10 — confirmed.  With `raise_empty=True`, whenever the raw lookup of
`get_value` succeeds with any falsy value (integer zero, `None`, an empty
container or the empty string alike), `get_value` raises `ValueError`;
consequently `sectfmt` drops a section whose referenced value is `0`
while keeping its other sections. -/
theorem C10_raise_empty (cfg : SafeFormatterCfg) (key : FKey) (args : List PyValue)
    (kwargs : List (String × PyValue)) (v : PyValue)
    (hre : cfg.raise_empty = true)
    (hraw : rawGetValue key args kwargs = .ok v)
    (hfalsy : truthy v = false) :
    SafeFormatter.get_value cfg key args kwargs =
      .error (.valueError (String.mk (fkeyRepr key) ++ " is not empty")) ∧
    sectfmt 200 "[n={n}] [t={t}]" [] [("n", .int 0), ("t", .int 5)] = .ok "t=5" := by
  constructor
  · unfold SafeFormatter.get_value
    rw [hraw]
    simp [hre, hfalsy]
  · rfl

theorem C10_raise_empty_witness :
    SafeFormatter.get_value (mkFormatter false true) (.name "n") []
      [("n", PyValue.int 0)] =
      .error (.valueError (String.mk (fkeyRepr (.name "n")) ++ " is not empty")) ∧
    sectfmt 200 "[n={n}] [t={t}]" [] [("n", .int 0), ("t", .int 5)] = .ok "t=5" :=
  C10_raise_empty (mkFormatter false true) (.name "n") [] [("n", PyValue.int 0)]
    (PyValue.int 0) rfl (by rfl) (by rfl)

/-- C5 — confirmed.  When the resolved value is the unknown-field sentinel,
the spec `02d!!7` coerces the default `7` to an integer (the primary spec
ends in `d`) and renders `07`; the spec `!!abc` has an empty primary spec,
whose empty last-character slice is contained in `bcdoxX` (so integer
coercion is attempted), and the failing `int("abc")` falls back to
rendering the default as the string `abc`. -/
theorem C5_default_fallback (v : PyValue) (hv : isUnknownSentinel v = true) :
    formatFieldM 100 (mkFormatter true false) v "02d!!7".data ["f"] =
      (.ok "07".data, []) ∧
    formatFieldM 100 (mkFormatter true false) v "!!abc".data ["f"] =
      (.ok "abc".data, []) := by
  cases v with
  | str s =>
    constructor
    · show formatFieldM (99 + 1) (mkFormatter true false) (.str s) "02d!!7".data ["f"] = _
      simp only [formatFieldM, hv]
      rfl
    · show formatFieldM (99 + 1) (mkFormatter true false) (.str s) "!!abc".data ["f"] = _
      simp only [formatFieldM, hv]
      rfl
  | int n => simp [isUnknownSentinel] at hv
  | none => simp [isUnknownSentinel] at hv
  | list xs => simp [isUnknownSentinel] at hv
  | dict xs => simp [isUnknownSentinel] at hv

theorem C5_default_fallback_witness :
    isUnknownSentinel (.str (lbraceS ++ "x" ++ rbraceS)) = true ∧
    formatFieldM 100 (mkFormatter true false) (.str (lbraceS ++ "x" ++ rbraceS))
      "02d!!7".data ["f"] = (.ok "07".data, []) ∧
    formatFieldM 100 (mkFormatter true false) (.str (lbraceS ++ "x" ++ rbraceS))
      "!!abc".data ["f"] = (.ok "abc".data, []) :=
  ⟨by rfl,
   (C5_default_fallback (.str (lbraceS ++ "x" ++ rbraceS)) (by rfl)).1,
   (C5_default_fallback (.str (lbraceS ++ "x" ++ rbraceS)) (by rfl)).2⟩

/-- C6 — counterexample.  The claim says a non-sentinel value with a
`!!default` marker raises when the formatter is not strict; the code
formats the value with the primary spec instead and raises nothing. -/
theorem C6_counterexample :
    formatFieldM 100 (mkFormatter true false) (.int 42) "d!!7".data ["a"] =
      (.ok "42".data, []) := by rfl

/-- C6 — amended.  For a value that is not the unknown sentinel, a
`!!default` marker in the spec and safe (non-strict) mode, `format_field`
never raises: the `raise KeyError` of the source fires only for an
unknown sentinel without a `!!` default in strict mode, and every other
failure of the safe path degrades to the diagnostic placeholder. -/
theorem C6_amended (fuel : Nat) (cfg : SafeFormatterCfg) (v : PyValue)
    (spec : List Char) (fn : String) (st : List String)
    (hsafe : cfg.safe = true) (hnk : isUnknownSentinel v = false)
    (hbang : containsSub ['!', '!'] spec = true) :
    ∃ r st₂, formatFieldM (fuel + 1) cfg v spec (fn :: st) = (.ok r, st₂) := by
  simp only [formatFieldM, hnk, hsafe]
  simp only [Bool.false_eq_true, and_false, if_false, false_and, not_true, and_self]
  split
  · exact ⟨_, _, rfl⟩
  · simp

theorem C6_amended_witness :
    ∃ r st₂, formatFieldM 100 (mkFormatter true false) (.int 7) "d!!9".data
      ("x" :: []) = (.ok r, st₂) :=
  C6_amended 99 (mkFormatter true false) (.int 7) "d!!9".data "x" [] rfl (by rfl) (by rfl)
